import Mathlib

/-!
# whereip: a shallow embedding of `main.go`

The development follows the source file top-down:

* Go strings are byte sequences; `utf8` gives the bytes of a string, `goSlice`
  is the slice expression `s[a:b]` (which panics when out of range) and `Atoi`
  is `strconv.Atoi`.
* `tzDiffSeg` is the body of the loop of `getCountryTimeZones`, the computation
  of `TZDiffSeg` for one timezone name; `getCountryTimeZones` is the loop.
* `int64` values are integers wrapped into `[-2^63, 2^63)` after every
  arithmetic operation.
* `Find`, `insertStat`, `getStats`, `clearStats` act on the global slice
  `queriesStats`, passed explicitly.
* `getISO31661a2` is modelled over the outcome of its three library calls.
* `hsin`, `Distance` and `getCountryDistance` are transcribed over the `float64`
  operations they call, taken with their contract (`Float64`).
-/

namespace WhereIP

/-! ## Go strings -/

/-- The UTF-8 encoding of one character, as a list of byte values. -/
def utf8Char (c : Char) : List Nat :=
  let n := c.toNat
  if n < 0x80 then [n]
  else if n < 0x800 then [0xC0 + n / 0x40, 0x80 + n % 0x40]
  else if n < 0x10000 then [0xE0 + n / 0x1000, 0x80 + n / 0x40 % 0x40, 0x80 + n % 0x40]
  else [0xF0 + n / 0x40000, 0x80 + n / 0x1000 % 0x40, 0x80 + n / 0x40 % 0x40, 0x80 + n % 0x40]

/-- The bytes of a Go string: indexing and slicing in Go act on these. -/
def utf8 (s : String) : List Nat :=
  s.toList.flatMap utf8Char

/-- The slice expression `s[a:b]` on the bytes of a string: `none` is the
run-time panic "slice bounds out of range", raised unless `a ≤ b ≤ len(s)`. -/
def goSlice (s : List Nat) (a b : Nat) : Option (List Nat) :=
  if a ≤ b ∧ b ≤ s.length then some ((s.drop a).take (b - a)) else none

/-- Whether a byte is an ASCII decimal digit. -/
def isDigit (b : Nat) : Bool :=
  decide (48 ≤ b ∧ b ≤ 57)

/-- The digit loop of `strconv.Atoi`: `n = n*10 + int(ch - '0')`, failing on
the first byte that is not a decimal digit. -/
def atoiDigits : List Nat → Nat → Option Nat
  | [], n => some n
  | ch :: rest, n => if isDigit ch then atoiDigits rest (n * 10 + (ch - 48)) else none

/-- Models `strconv.Atoi` on the bytes of its argument: `none` is a non-nil error.
An optional sign is followed by at least one byte, all of them decimal digits;
a value outside the range of `int` (64 bits) is a range error. -/
def Atoi (s : List Nat) : Option Int :=
  match s with
  | [] => none
  | c :: rest =>
    let signed := c = 45 ∨ c = 43
    let digits := if signed then rest else s
    if digits.length < 1 then none
    else
      match atoiDigits digits 0 with
      | none => none
      | some n =>
        let v : Int := if c = 45 then -(n : Int) else (n : Int)
        if -(2 : Int) ^ 63 ≤ v ∧ v < (2 : Int) ^ 63 then some v else none

/-! ## `getCountryTimeZones` -/

/-- The computation of `TZDiffSeg` for one timezone name, lines 273-290 of
`main.go`; `none` is a panic (a slice out of range, or `panic(err)` after a
failed `strconv.Atoi`). -/
def tzDiffSeg (TZOffSet : String) : Option Int :=
  if TZOffSet = "UTC" then some 0
  else
    match (goSlice (utf8 TZOffSet) 4 5).bind Atoi with
    | none => none
    | some TZHourDiff =>
      match (goSlice (utf8 TZOffSet) 7 8).bind Atoi with
      | none => none
      | some TZMinDiff =>
        let TZDiffSeg := TZHourDiff * 60 * 60
        let TZDiffSeg := TZDiffSeg + TZMinDiff * 60
        match goSlice (utf8 TZOffSet) 3 3 with
        | none => none
        | some sign => if sign = utf8 "-" then some (TZDiffSeg * -1) else some TZDiffSeg

/-- The loop of `getCountryTimeZones` over the timezone names of the country
document. Each entry yields the fixed zone `time.FixedZone(name, TZDiffSeg)` in
which the base time is then formatted; the result lists these zones in order.
`none` is a panic, which aborts the whole call at the first entry that fails. -/
def getCountryTimeZones : List String → Option (List (String × Int))
  | [] => some []
  | TZName :: rest =>
    match tzDiffSeg TZName with
    | none => none
    | some TZDiffSeg =>
      match getCountryTimeZones rest with
      | none => none
      | some TZList => some ((TZName, TZDiffSeg) :: TZList)

/-- Reads a non-empty run of decimal digits as a number. -/
def readNumber (ds : List Nat) : Option Nat :=
  if ds.length < 1 then none else atoiDigits ds 0

/-- The offset the specification assigns to a timezone name: `0` for the
literal `UTC`, and `sign * (hours*3600 + minutes*60)` for `UTC`, a sign, the
hour digits, a colon and the minute digits. `none` for any other string. -/
def referenceOffset (tz : String) : Option Int :=
  if tz = "UTC" then some 0
  else
    match utf8 tz with
    | 85 :: 84 :: 67 :: sign :: rest =>
      if sign = 43 ∨ sign = 45 then
        match readNumber (rest.takeWhile (fun b => b != 58)),
              readNumber ((rest.dropWhile (fun b => b != 58)).drop 1) with
        | some hours, some minutes =>
          if (rest.dropWhile (fun b => b != 58)).length < 1 then none
          else some ((if sign = 45 then -1 else 1) * ((hours : Int) * 3600 + (minutes : Int) * 60))
        | _, _ => none
      else none
    | _ => none

/-! ## 64-bit integers -/

/-- The value an `int64` holds after an arithmetic result `x`: the integer
congruent to `x` modulo `2^64` in `[-2^63, 2^63)`. -/
def wrap64 (x : Int) : Int :=
  (x + 2 ^ 63) % 2 ^ 64 - 2 ^ 63

/-- The `int64` sum `a + b`. -/
def add64 (a b : Int) : Int := wrap64 (a + b)

/-- The `int64` product `a * b`. -/
def mul64 (a b : Int) : Int := wrap64 (a * b)

/-- The `int64` quotient `a / b` for `b ≠ 0`: truncated towards zero, and
wrapped (the most negative value divided by `-1` is itself). -/
def div64 (a b : Int) : Int := wrap64 (Int.tdiv a b)

/-- The value of `float64(x)` for an `int64` `x`: `x` rounded to 53
significant bits, ties to even. The result is again an integer. -/
def float64OfInt64 (x : Int) : Int :=
  let a := x.natAbs
  if a < 2 ^ 53 then x
  else
    let e := Nat.log2 a - 52
    let q := a / 2 ^ e
    let r := a % 2 ^ e
    let half := 2 ^ (e - 1)
    let q := if half < r ∨ (r = half ∧ q % 2 = 1) then q + 1 else q
    if x < 0 then -((q * 2 ^ e : Nat) : Int) else ((q * 2 ^ e : Nat) : Int)

/-- The value of `int64(f)` for an integer-valued `float64` `f`. A value that
`int64` cannot represent (only `2^63` arises here) converts to an
implementation-specific result, `minInt64` on amd64. -/
def int64OfFloat64 (f : Int) : Int :=
  if -(2 : Int) ^ 63 ≤ f ∧ f < (2 : Int) ^ 63 then f else -(2 : Int) ^ 63

/-! ## The statistics store -/

/-- Query stat single entry. -/
structure queriesCount where
  CountryCode : String
  CountryName : String
  Distance : Int
  Queries : Int
  deriving DecidableEq

/-- Query stat summary. -/
structure statsSummary where
  FurthestDistance : Int
  ClosestDistance : Int
  AverageDistance : Int
  deriving DecidableEq

/-- The loop of `Find`, at position `i` of the slice. -/
def Find.loop (x : queriesCount) : List queriesCount → Int → Int
  | [], _ => -1
  | n :: rest, i => if x.CountryCode = n.CountryCode then i else Find.loop x rest (i + 1)

/-- Models `Find(a, x)`: the smallest index whose entry has the country code of `x`,
or `-1` (the source comment also speaks of equality of entries and of `len(a)`;
the code compares country codes and returns `-1`). -/
def Find (a : List queriesCount) (x : queriesCount) : Int :=
  Find.loop x a 0

/-- Models `insertStat(q)` on the global `queriesStats`: the new value of the slice. -/
def insertStat (queriesStats : List queriesCount) (q : queriesCount) : List queriesCount :=
  let searchIndex := Find queriesStats q
  if searchIndex ≥ 0 then
    queriesStats.modify (fun e => { e with Queries := add64 e.Queries q.Queries })
      searchIndex.toNat
  else
    queriesStats ++ [q]

/-- Models `clearStats`: the new value of the slice (`nil`). -/
def clearStats (_queriesStats : List queriesCount) : List queriesCount := []

/-- The method `ByDistance.Less` on two entries. -/
def ByDistance.Less (x y : queriesCount) : Prop := x.Distance < y.Distance

instance : DecidableRel ByDistance.Less := fun x y => Int.decLt x.Distance y.Distance

/-- The contract of `sort.Sort` for `ByDistance`: the slice is rearranged in
place so that no later entry is `Less` than an earlier one. The library does not
promise which of the orders with this property it produces (the sort is not
stable), so the summary is stated for every function with this contract. -/
structure Sorter where
  run : List queriesCount → List queriesCount
  perm : ∀ l, (run l).Perm l
  sorted : ∀ l, (run l).Pairwise (fun x y => ¬ ByDistance.Less y x)

/-- What the handler `getStats` writes, or that it panicked before writing. -/
inductive statsResponse where
  | summary (s : statsSummary)
  | message (m : String)
  | panicked
  deriving DecidableEq

/-- The loop of `getStats` over the sorted slice: `(distanceSum, queriesSum)`. -/
def statSums : List queriesCount → Int × Int → Int × Int
  | [], acc => acc
  | v :: rest, (distanceSum, queriesSum) =>
    statSums rest (add64 distanceSum (mul64 v.Queries v.Distance), add64 queriesSum v.Queries)

/-- Models `getStats` on the global `queriesStats`: the new value of the slice (sorted
in place) and the response. `math.Round` is the identity on the integer-valued
`float64` it is given. The integer division panics on a zero divisor, after the
slice has been sorted. `json.Marshal` cannot fail on a struct of three `int64`
fields, so its error branch is left out. -/
def getStats (S : Sorter) (queriesStats : List queriesCount) :
    List queriesCount × statsResponse :=
  if queriesStats.length > 0 then
    let queriesStats := S.run queriesStats
    match queriesStats.head?, queriesStats.getLast? with
    | some first, some last =>
      let (distanceSum, queriesSum) := statSums queriesStats (0, 0)
      if queriesSum = 0 then (queriesStats, statsResponse.panicked)
      else
        (queriesStats, statsResponse.summary
          { FurthestDistance := last.Distance
            ClosestDistance := first.Distance
            AverageDistance := int64OfFloat64 (float64OfInt64 (div64 distanceSum queriesSum)) })
    | _, _ =>
      (queriesStats, statsResponse.summary
        { FurthestDistance := 0, ClosestDistance := 0, AverageDistance := 0 })
  else
    (queriesStats, statsResponse.message "There isn't any query recorded.")

/-- The insertion sort `sort.Sort` runs on short slices (at most 12 entries):
each entry moves left while it is `Less` than its predecessor. -/
def insertionSort (l : List queriesCount) : List queriesCount :=
  List.insertionSort (fun x y => x.Distance ≤ y.Distance) l

/-- The sorter built from `insertionSort`, with the contract proved. -/
def insertionSorter : Sorter where
  run := insertionSort
  perm := fun l => List.perm_insertionSort _ l
  sorted := fun l => by
    have hs : List.Sorted (fun x y : queriesCount => x.Distance ≤ y.Distance)
        (insertionSort l) := by
      haveI : IsTotal queriesCount (fun x y => x.Distance ≤ y.Distance) :=
        ⟨fun x y => le_total x.Distance y.Distance⟩
      haveI : IsTrans queriesCount (fun x y => x.Distance ≤ y.Distance) :=
        ⟨fun x y z hxy hyz => le_trans hxy hyz⟩
      exact List.sorted_insertionSort _ l
    have hp : List.Pairwise (fun x y : queriesCount => x.Distance ≤ y.Distance)
        (insertionSort l) := hs
    refine hp.imp ?_
    intro x y h
    exact not_lt.mpr h

/-- The sum of the query counts of all entries, as an integer. -/
def totalQueries (queriesStats : List queriesCount) : Int :=
  (queriesStats.map (fun e => e.Queries)).sum

/-- The sum of `Queries * Distance` over all entries, as an integer. -/
def totalDistance (queriesStats : List queriesCount) : Int :=
  (queriesStats.map (fun e => e.Queries * e.Distance)).sum

/-- The nearest integer to `n / d` for `d > 0`, halves away from zero. -/
def roundDiv (n d : Int) : Int :=
  if 0 ≤ n then (2 * n + d) / (2 * d) else -((2 * (-n) + d) / (2 * d))

/-- The average the specification describes: the count-weighted mean
`sum(Queries*Distance) / sum(Queries)` rounded to the nearest integer. -/
def roundedMean (queriesStats : List queriesCount) : Int :=
  roundDiv (totalDistance queriesStats) (totalQueries queriesStats)

/-! ## Requests -/

/-- A request to the service, as far as the statistics store is concerned:
`/whereip/ip` reaching `insertStat` with the country it resolved, `/stats/` and
`/clearstats/`. -/
inductive Request where
  | whereip (CountryCode CountryName : String) (Distance : Int)
  | stats
  | clearstats
  deriving DecidableEq

/-- The effect of `getIPInfo` on `queriesStats`: it records one query. -/
def getIPInfo (queriesStats : List queriesCount) (countryISO31661a2 countryName : String)
    (countryDistance : Int) : List queriesCount :=
  let thisQueryCount : queriesCount :=
    { CountryCode := countryISO31661a2
      CountryName := countryName
      Distance := countryDistance
      Queries := 1 }
  insertStat queriesStats thisQueryCount

/-- The effect of one request on `queriesStats`. -/
def serve (S : Sorter) (queriesStats : List queriesCount) : Request → List queriesCount
  | Request.whereip code name distance => getIPInfo queriesStats code name distance
  | Request.stats => (getStats S queriesStats).1
  | Request.clearstats => clearStats queriesStats

/-- The value of `queriesStats` after a sequence of requests. -/
def serveAll (S : Sorter) (queriesStats : List queriesCount) (reqs : List Request) :
    List queriesCount :=
  reqs.foldl (serve S) queriesStats

/-- The count of recordings after one more request: a recording adds one, a
clear resets it. -/
def countRecording (n : Nat) : Request → Nat
  | Request.whereip _ _ _ => n + 1
  | Request.stats => n
  | Request.clearstats => 0

/-- The number of recordings made since the last clear in a sequence of
requests. -/
def recordingsSinceClear (reqs : List Request) : Nat :=
  reqs.foldl countRecording 0

/-- The invariant of the store behind the count of recordings: every entry
has a count of at least one and the counts add up to `n`. -/
def Counted (queriesStats : List queriesCount) (n : Nat) : Prop :=
  (∀ e ∈ queriesStats, 1 ≤ e.Queries) ∧ totalQueries queriesStats = n

/-! ## `getISO31661a2` -/

/-- How a call ends: it returns a value, or `log.Fatalln` ends the process. -/
inductive Outcome (α : Type) where
  | returned (v : α)
  | fatal
  deriving DecidableEq

/-- Sequencing: nothing runs after the process has ended. -/
def Outcome.andThen {α β : Type} : Outcome α → (α → Outcome β) → Outcome β
  | Outcome.returned v, k => k v
  | Outcome.fatal, _ => Outcome.fatal

/-- The call `log.Fatalln(err)`: prints and calls `os.Exit(1)`. -/
def logFatalln : Outcome Unit := Outcome.fatal

/-- What `gjson.GetBytes` yields for a path: the zero `Result` when the path is
not found in the document (also for a body that is not JSON), or a value
together with the text its `String()` method gives. -/
inductive gjsonResult where
  | missing
  | value (text : String)
  deriving DecidableEq

/-- The method `Result.String()`: the empty string for the zero `Result`. -/
def gjsonResult.String : gjsonResult → String
  | gjsonResult.missing => ""
  | gjsonResult.value text => text

/-- Models `getISO31661a2`, over the outcomes of its library calls: `httpGet` is the
result of `http.Get(URL)`, `readAll` that of `ioutil.ReadAll(resp.Body)` and
`GetBytes` is `gjson.GetBytes` at `jsonCountryCodePath`. -/
def getISO31661a2 {Response : Type} (unkwonCountryCode : String)
    (httpGet : Except String Response) (readAll : Response → Except String (List Nat))
    (GetBytes : List Nat → gjsonResult) : Outcome String :=
  match httpGet with
  | Except.error _ => logFatalln.andThen fun _ => Outcome.fatal
  | Except.ok resp =>
    match readAll resp with
    | Except.error _ => logFatalln.andThen fun _ => Outcome.returned unkwonCountryCode
    | Except.ok body =>
      let ISOCode := GetBytes body
      Outcome.returned ISOCode.String

/-- The lookup `gjson.GetBytes` at the path `countryCode` on two bodies: the document
with `"countryCode":"AR"`, where it finds the value, and any other body (the
empty object, a body that is not JSON), where it finds none. -/
def sampleGetBytes (body : List Nat) : gjsonResult :=
  if body = utf8 "\x7b\"countryCode\":\"AR\"\x7d" then gjsonResult.value "AR"
  else gjsonResult.missing

/-! ## `float64` and the distance -/

/-- The `float64` operations `Distance` and `getCountryDistance` call, with the
laws of IEEE 754 arithmetic (round to nearest) and of Go's `math` package that
the distance relies on. `F` is the set of `float64` values, the two zeros taken
as one value and all NaNs as one value: none of the operations below tells them
apart. `ofNat n` is the constant `n`, `eq` is Go's `==`, `neg` is the unary
minus (used in the laws only), `toInt64` is the conversion `int64(x)`. -/
structure Float64 (F : Type) where
  ofNat : Nat → F
  pi : F
  nan : F
  add : F → F → F
  sub : F → F → F
  mul : F → F → F
  div : F → F → F
  neg : F → F
  Sin : F → F
  Cos : F → F
  Pow : F → F → F
  Sqrt : F → F
  Asin : F → F
  Round : F → F
  toInt64 : F → Int
  eq : F → F → Bool
  finite : F → Prop
  -- IEEE 754: rounding to nearest is symmetric in the sign
  sub_swap : ∀ a b, sub b a = neg (sub a b)
  div_neg : ∀ x c, div (neg x) c = neg (div x c)
  -- Go's math package: Sin is odd, Pow with exponent 2 is even
  Sin_neg : ∀ x, Sin (neg x) = neg (Sin x)
  Pow_neg_two : ∀ x, Pow (neg x) (ofNat 2) = Pow x (ofNat 2)
  -- IEEE 754: exact results are not rounded
  mul_comm : ∀ a b, mul a b = mul b a
  sub_self : ∀ x, finite x → sub x x = ofNat 0
  zero_div : ∀ n, div (ofNat 0) (ofNat (n + 1)) = ofNat 0
  mul_zero : ∀ x, finite x → mul x (ofNat 0) = ofNat 0
  add_zero : ∀ x, add x (ofNat 0) = x
  -- Go's math package and conversions: the documented values at zero
  Sin_zero : Sin (ofNat 0) = ofNat 0
  Pow_zero_two : Pow (ofNat 0) (ofNat 2) = ofNat 0
  Sqrt_zero : Sqrt (ofNat 0) = ofNat 0
  Asin_zero : Asin (ofNat 0) = ofNat 0
  Round_zero : Round (ofNat 0) = ofNat 0
  toInt64_zero : toInt64 (ofNat 0) = 0
  -- a cosine is at most 1 in magnitude; small integers are exact
  finite_Cos_mul_Cos : ∀ x y, finite x → finite y → finite (mul (Cos x) (Cos y))
  mul_ofNat : ∀ a b, a * b < 2 ^ 53 → mul (ofNat a) (ofNat b) = ofNat (a * b)
  finite_ofNat : ∀ n, n < 2 ^ 53 → finite (ofNat n)
  not_finite_nan : ¬ finite nan
  -- NaN propagates through every operation and compares unequal to everything
  nan_add : ∀ x, add nan x = nan
  nan_sub : ∀ x, sub nan x = nan
  sub_nan : ∀ x, sub x nan = nan
  nan_mul : ∀ x, mul nan x = nan
  mul_nan : ∀ x, mul x nan = nan
  nan_div : ∀ x, div nan x = nan
  Sin_nan : Sin nan = nan
  Pow_nan : Pow nan (ofNat 2) = nan
  Sqrt_nan : Sqrt nan = nan
  Asin_nan : Asin nan = nan
  eq_iff : ∀ x y, eq x y = true ↔ (x = y ∧ x ≠ nan)

/-- Implements the haversin(θ) function: `math.Pow(math.Sin(theta/2), 2)`. -/
def hsin {F : Type} (M : Float64 F) (theta : F) : F :=
  M.Pow (M.Sin (M.div theta (M.ofNat 2))) (M.ofNat 2)

/-- The conversion of degrees to radians of `Distance`: `x * math.Pi / 180`. -/
def radians {F : Type} (M : Float64 F) (x : F) : F :=
  M.div (M.mul x M.pi) (M.ofNat 180)

/-- Models `Distance(lat1, lon1, lat2, lon2)`, in meters, each operation
rounded on its own (as on amd64, where the compiler fuses no multiply-add). -/
def Distance {F : Type} (M : Float64 F) (lat1 lon1 lat2 lon2 : F) : F :=
  let la1 := M.div (M.mul lat1 M.pi) (M.ofNat 180)
  let lo1 := M.div (M.mul lon1 M.pi) (M.ofNat 180)
  let la2 := M.div (M.mul lat2 M.pi) (M.ofNat 180)
  let lo2 := M.div (M.mul lon2 M.pi) (M.ofNat 180)
  let r := M.ofNat 6378100
  let h := M.add (hsin M (M.sub la2 la1))
    (M.mul (M.mul (M.Cos la1) (M.Cos la2)) (hsin M (M.sub lo2 lo1)))
  M.mul (M.mul (M.ofNat 2) r) (M.Asin (M.Sqrt h))

/-- Models `getCountryDistance`, over the latitude and longitude that the two
`gjson` lookups give and the base coordinate of the configuration. -/
def getCountryDistance {F : Type} (M : Float64 F) (countryLat countryLong baseLat baseLng : F) :
    Int :=
  let distanceKm := M.div (Distance M countryLat countryLong baseLat baseLng) (M.ofNat 1000)
  M.toInt64 (M.Round distanceKm)

/-- The integer square root of a natural number, by search. -/
def isqrt (n : Nat) : Nat :=
  ((List.range (n + 1)).filter (fun k => k * k ≤ n)).length - 1

/-- Lifts an integer operation to values that may be NaN. -/
def lift2 (f : Int → Int → Int) : Option Int → Option Int → Option Int
  | some x, some y => some (f x y)
  | _, _ => none

/-- A small instance of the contract, on which the distance can be evaluated:
the values are NaN (`none`) and the integers, arithmetic is exact with a
truncating division and an integer square root, and the trigonometric
functions are taken at small angles (`Sin x = x`, `Cos x = 1`, `Asin x = x`).
It is not `float64`; it shows that the laws of the contract hold together. -/
def smallAngle : Float64 (Option Int) where
  ofNat := fun n => some (n : Int)
  pi := some 3
  nan := none
  add := lift2 (fun x y => x + y)
  sub := lift2 (fun x y => x - y)
  mul := lift2 (fun x y => x * y)
  div := fun a b =>
    match a, b with
    | some x, some y => if y = 0 then none else some (Int.tdiv x y)
    | _, _ => none
  neg := fun a => a.map (fun x => -x)
  Sin := fun a => a
  Cos := fun a => a.map (fun _ => 1)
  Pow := lift2 (fun x y => x ^ y.toNat)
  Sqrt := fun a =>
    match a with
    | some x => if x < 0 then none else some ((isqrt x.toNat : Nat) : Int)
    | none => none
  Asin := fun a => a
  Round := fun a => a
  toInt64 := fun a => a.getD (-(2 : Int) ^ 63)
  eq := fun a b =>
    match a, b with
    | some x, some y => decide (x = y)
    | _, _ => false
  finite := fun a => a.isSome = true
  sub_swap := by
    intro a b
    cases a <;> cases b <;> simp [lift2]
  div_neg := by
    intro x c
    cases x <;> cases c <;> simp
    split <;> simp [Int.neg_tdiv]
  Sin_neg := by intro x; rfl
  Pow_neg_two := by
    intro x
    cases x <;> simp [lift2]
  mul_comm := by
    intro a b
    cases a <;> cases b <;> simp [lift2, Int.mul_comm]
  sub_self := by
    intro x hx
    cases x <;> simp [lift2] at hx ⊢
  zero_div := by
    intro n
    have h : ((n : Int) + 1 = 0) = False := by
      apply propext; constructor
      · intro h; omega
      · intro h; exact h.elim
    simp [h]
  mul_zero := by
    intro x hx
    cases x <;> simp [lift2] at hx ⊢
  add_zero := by
    intro x
    cases x <;> simp [lift2]
  Sin_zero := rfl
  Pow_zero_two := by simp [lift2]
  Sqrt_zero := by decide
  Asin_zero := rfl
  Round_zero := rfl
  toInt64_zero := by simp
  finite_Cos_mul_Cos := by
    intro x y hx hy
    cases x <;> cases y <;> simp [lift2] at hx hy ⊢
  mul_ofNat := by
    intro a b _
    simp [lift2]
  finite_ofNat := by intro n _; rfl
  not_finite_nan := by simp
  nan_add := by intro x; rfl
  nan_sub := by intro x; rfl
  sub_nan := by intro x; cases x <;> rfl
  nan_mul := by intro x; rfl
  mul_nan := by intro x; cases x <;> rfl
  nan_div := by intro x; rfl
  Sin_nan := rfl
  Pow_nan := rfl
  Sqrt_nan := rfl
  Asin_nan := rfl
  eq_iff := by
    intro x y
    cases x <;> cases y <;> simp

/-! ## Sample data -/

/-- The collection of the specification's summary example: distances 100, 0
and 50 with counts 1, 1 and 2. -/
def sampleStats : List queriesCount :=
  [⟨"BR", "Brasil", 100, 1⟩, ⟨"AR", "Argentina", 0, 1⟩, ⟨"CL", "Chile", 50, 2⟩]

/-- Three enrichment requests: two resolved to a country 2862 km away, one to
a country 281 km away. -/
def sampleRequests : List Request :=
  [Request.whereip "BR" "Brasil" 2862, Request.whereip "UY" "Uruguay" 281,
    Request.whereip "BR" "Brasil" 2862]

/-- A longer session: recordings, a summary, a clear, and recordings again. -/
def sampleSession : List Request :=
  [Request.whereip "BR" "Brasil" 2862, Request.whereip "UY" "Uruguay" 281, Request.stats,
    Request.clearstats, Request.whereip "AR" "Argentina" 0, Request.whereip "BR" "Brasil" 2862,
    Request.whereip "AR" "Argentina" 0, Request.stats]

/-! ## Timezone offsets: lemmas -/

theorem goSlice_single (s : List Nat) (i : Nat) :
    goSlice s i (i + 1) = if i < s.length then some [s.getD i 0] else none := by
  unfold goSlice
  by_cases h : i < s.length
  · have h1 : i ≤ i + 1 ∧ i + 1 ≤ s.length := ⟨by omega, by omega⟩
    have hd : s.drop i = s[i] :: s.drop (i + 1) := by
      rw [List.drop_eq_getElem_cons h]
    rw [if_pos h1, if_pos h, hd, Nat.add_sub_cancel_left, List.getD_eq_getElem _ _ h]
    rfl
  · have h1 : ¬ (i ≤ i + 1 ∧ i + 1 ≤ s.length) := by omega
    rw [if_neg h1, if_neg h]

theorem Atoi_single (c : Nat) :
    Atoi [c] = if isDigit c then some ((c - 48 : Nat) : Int) else none := by
  by_cases hd : isDigit c = true
  · have hr : 48 ≤ c ∧ c ≤ 57 := by simpa [isDigit] using hd
    have h45 : c ≠ 45 := by omega
    have h43 : c ≠ 43 := by omega
    have hb : ((c - 48 : Nat) : Int) < 2 ^ 63 := by
      have : c - 48 ≤ 9 := by omega
      have h9 : ((c - 48 : Nat) : Int) ≤ 9 := by exact_mod_cast this
      have : (9 : Int) < 2 ^ 63 := by norm_num
      omega
    have hl : -(2 : Int) ^ 63 ≤ ((c - 48 : Nat) : Int) := by
      have : (0 : Int) ≤ ((c - 48 : Nat) : Int) := Int.natCast_nonneg _
      have : -(2 : Int) ^ 63 ≤ 0 := by norm_num
      omega
    simp only [Atoi, atoiDigits, hd, h45, h43, or_self, if_false, if_true, List.length_singleton,
      lt_self_iff_false, zero_mul, zero_add]
    rw [if_pos ⟨hl, hb⟩]
  · have hd2 : isDigit c = false := by simpa using hd
    by_cases h45 : c = 45
    · subst h45; simp [Atoi, isDigit]
    · by_cases h43 : c = 43
      · subst h43; simp [Atoi, isDigit]
      · simp [Atoi, atoiDigits, hd2, h45, h43]

theorem tzDiffSeg_eq_none (s : String) (hne : s ≠ "UTC")
    (h : (utf8 s).length < 8 ∨ isDigit ((utf8 s).getD 4 0) = false ∨
      isDigit ((utf8 s).getD 7 0) = false) :
    tzDiffSeg s = none := by
  unfold tzDiffSeg
  rw [if_neg hne, goSlice_single, goSlice_single]
  by_cases h4 : 4 < (utf8 s).length
  · by_cases h7 : 7 < (utf8 s).length
    · simp only [if_pos h4, if_pos h7, Option.bind, Atoi_single]
      rcases h with h | h | h
      · omega
      · rw [h]; rfl
      · rw [h]; split <;> rfl
    · simp only [if_neg h7, Option.bind]
      split <;> rfl
  · simp [if_neg h4]

theorem tzDiffSeg_eq_some (s : String) (hne : s ≠ "UTC") (h8 : 8 ≤ (utf8 s).length)
    (d4 : isDigit ((utf8 s).getD 4 0) = true) (d7 : isDigit ((utf8 s).getD 7 0) = true) :
    tzDiffSeg s = some ((((utf8 s).getD 4 0 - 48 : Nat) : Int) * 60 * 60 +
      (((utf8 s).getD 7 0 - 48 : Nat) : Int) * 60) := by
  have h4 : 4 < (utf8 s).length := by omega
  have h7 : 7 < (utf8 s).length := by omega
  have hs3 : goSlice (utf8 s) 3 3 = some [] := by
    unfold goSlice
    rw [if_pos ⟨le_refl _, by omega⟩]
    simp
  have hminus : ¬ (([] : List Nat) = utf8 "-") := by decide
  unfold tzDiffSeg
  rw [if_neg hne, goSlice_single, goSlice_single]
  simp only [if_pos h4, if_pos h7, Option.bind, Atoi_single]
  rw [d4, d7]
  simp only [if_true, hs3, if_neg hminus]

theorem tzDiffSeg_range (s : String) (v : Int) (h : tzDiffSeg s = some v) :
    0 ≤ v ∧ v ≤ 9 * 3600 + 9 * 60 := by
  unfold tzDiffSeg at h
  by_cases hutc : s = "UTC"
  · rw [if_pos hutc] at h
    have : v = 0 := (Option.some.inj h).symm
    omega
  · rw [if_neg hutc, goSlice_single, goSlice_single] at h
    by_cases h4 : 4 < (utf8 s).length
    · by_cases h7 : 7 < (utf8 s).length
      · simp only [if_pos h4, if_pos h7, Option.bind, Atoi_single] at h
        by_cases d4 : isDigit ((utf8 s).getD 4 0) = true
        · by_cases d7 : isDigit ((utf8 s).getD 7 0) = true
          · have r4 : 48 ≤ (utf8 s).getD 4 0 ∧ (utf8 s).getD 4 0 ≤ 57 := by
              simpa [isDigit] using d4
            have r7 : 48 ≤ (utf8 s).getD 7 0 ∧ (utf8 s).getD 7 0 ≤ 57 := by
              simpa [isDigit] using d7
            have hs3 : goSlice (utf8 s) 3 3 = some [] := by
              unfold goSlice
              rw [if_pos ⟨le_refl _, by omega⟩]
              simp
            have hminus : ¬ (([] : List Nat) = utf8 "-") := by decide
            simp only [d4, d7, if_true, hs3, if_neg hminus] at h
            have hv := Option.some.inj h
            have c4 : (((utf8 s).getD 4 0 - 48 : Nat) : Int) ≤ 9 := by
              have : (utf8 s).getD 4 0 - 48 ≤ 9 := by omega
              exact_mod_cast this
            have c7 : (((utf8 s).getD 7 0 - 48 : Nat) : Int) ≤ 9 := by
              have : (utf8 s).getD 7 0 - 48 ≤ 9 := by omega
              exact_mod_cast this
            have n4 : (0 : Int) ≤ (((utf8 s).getD 4 0 - 48 : Nat) : Int) := Int.natCast_nonneg _
            have n7 : (0 : Int) ≤ (((utf8 s).getD 7 0 - 48 : Nat) : Int) := Int.natCast_nonneg _
            omega
          · have d7f : isDigit ((utf8 s).getD 7 0) = false := by simpa using d7
            rw [d4, d7f] at h
            simp at h
        · have d4f : isDigit ((utf8 s).getD 4 0) = false := by simpa using d4
          rw [d4f] at h
          simp at h
      · simp only [if_neg h7, Option.bind] at h
        split at h <;> simp at h
    · simp [if_neg h4] at h

theorem getCountryTimeZones_eq_none (TZNames : List String) (s : String) (hmem : s ∈ TZNames)
    (h : tzDiffSeg s = none) : getCountryTimeZones TZNames = none := by
  induction TZNames with
  | nil => simp at hmem
  | cons t rest ih =>
    rcases List.mem_cons.mp hmem with rfl | hr
    · simp [getCountryTimeZones, h]
    · have := ih hr
      simp only [getCountryTimeZones, this]
      split <;> rfl

/-! ## The statistics store: lemmas -/

theorem wrap64_of_inRange (x : Int) (h : -(2 : Int) ^ 63 ≤ x ∧ x < (2 : Int) ^ 63) :
    wrap64 x = x := by
  unfold wrap64
  have h1 : (-(2 : Int) ^ 63) = -9223372036854775808 := by norm_num
  have h2 : ((2 : Int) ^ 63) = 9223372036854775808 := by norm_num
  have h3 : ((2 : Int) ^ 64) = 18446744073709551616 := by norm_num
  rw [h1, h2] at h
  rw [h2, h3]
  omega

theorem wrap64_add_wrap64 (a b : Int) : wrap64 (wrap64 a + b) = wrap64 (a + b) := by
  unfold wrap64
  have h2 : ((2 : Int) ^ 63) = 9223372036854775808 := by norm_num
  have h3 : ((2 : Int) ^ 64) = 18446744073709551616 := by norm_num
  rw [h2, h3]
  omega

theorem modify_append_cons (f : queriesCount → queriesCount) (pre : List queriesCount)
    (e : queriesCount) (post : List queriesCount) :
    (pre ++ e :: post).modify f pre.length = pre ++ f e :: post := by
  induction pre with
  | nil => rfl
  | cons a pre ih => simp [List.modify_succ_cons, ih]

theorem getElem?_append_cons (pre : List queriesCount) (e : queriesCount)
    (post : List queriesCount) : (pre ++ e :: post)[pre.length]? = some e := by
  induction pre with
  | nil => simp
  | cons a pre ih => simpa using ih

theorem Find_loop_spec (x : queriesCount) (l : List queriesCount) (i : Int) :
    ((∀ n ∈ l, n.CountryCode ≠ x.CountryCode) ∧ Find.loop x l i = -1) ∨
    (∃ pre e post, l = pre ++ e :: post ∧ e.CountryCode = x.CountryCode ∧
      (∀ n ∈ pre, n.CountryCode ≠ x.CountryCode) ∧ Find.loop x l i = i + pre.length) := by
  induction l generalizing i with
  | nil => left; simp [Find.loop]
  | cons a l ih =>
    by_cases h : x.CountryCode = a.CountryCode
    · right
      refine ⟨[], a, l, rfl, h.symm, by simp, ?_⟩
      simp [Find.loop, h]
    · rcases ih (i + 1) with ⟨hall, hres⟩ | ⟨pre, e, post, hl, he, hpre, hres⟩
      · left
        refine ⟨?_, ?_⟩
        · intro n hn
          rcases List.mem_cons.mp hn with rfl | hn
          · exact fun hc => h hc.symm
          · exact hall n hn
        · simp [Find.loop, h, hres]
      · right
        refine ⟨a :: pre, e, post, by simp [hl], he, ?_, ?_⟩
        · intro n hn
          rcases List.mem_cons.mp hn with rfl | hn
          · exact fun hc => h hc.symm
          · exact hpre n hn
        · simp only [Find.loop, h, if_false, hres, List.length_cons]
          push_cast
          ring

theorem Find_spec (l : List queriesCount) (x : queriesCount) :
    ((∀ n ∈ l, n.CountryCode ≠ x.CountryCode) ∧ Find l x = -1) ∨
    (∃ pre e post, l = pre ++ e :: post ∧ e.CountryCode = x.CountryCode ∧
      (∀ n ∈ pre, n.CountryCode ≠ x.CountryCode) ∧ Find l x = pre.length) := by
  rcases Find_loop_spec x l 0 with h | ⟨pre, e, post, hl, he, hpre, hres⟩
  · exact Or.inl h
  · exact Or.inr ⟨pre, e, post, hl, he, hpre, by simpa [Find] using hres⟩

theorem Find_nonneg_iff (l : List queriesCount) (x : queriesCount) :
    0 ≤ Find l x ↔ ∃ n ∈ l, n.CountryCode = x.CountryCode := by
  rcases Find_spec l x with ⟨hall, hres⟩ | ⟨pre, e, post, hl, he, _, hres⟩
  · rw [hres]
    constructor
    · intro h; omega
    · rintro ⟨n, hn, hc⟩; exact absurd hc (hall n hn)
  · rw [hres]
    constructor
    · intro _; exact ⟨e, by simp [hl], he⟩
    · intro _; exact Int.natCast_nonneg _

theorem insertStat_found (l : List queriesCount) (q : queriesCount)
    (pre : List queriesCount) (e : queriesCount) (post : List queriesCount)
    (hl : l = pre ++ e :: post) (he : e.CountryCode = q.CountryCode)
    (hpre : ∀ n ∈ pre, n.CountryCode ≠ q.CountryCode) :
    insertStat l q = pre ++ { e with Queries := add64 e.Queries q.Queries } :: post := by
  rcases Find_spec l q with ⟨hall, _⟩ | ⟨pre2, e2, post2, hl2, he2, hpre2, hres⟩
  · exact absurd he (hall e (by simp [hl]))
  · have hlen : pre2.length = pre.length := by
      rcases Nat.lt_trichotomy pre2.length pre.length with hlt | heq | hgt
      · exfalso
        have h1 : l[pre2.length]? = some e2 := by rw [hl2]; exact getElem?_append_cons _ _ _
        have h2 : l[pre2.length]? = pre[pre2.length]? := by
          rw [hl, List.getElem?_append_left hlt]
        have h3 : pre[pre2.length]? = some pre[pre2.length] := List.getElem?_eq_getElem hlt
        have h4 : e2 = pre[pre2.length] := by
          rw [h2, h3] at h1; exact (Option.some.inj h1).symm
        exact hpre _ (List.getElem_mem hlt) (h4 ▸ he2)
      · exact heq
      · exfalso
        have h1 : l[pre.length]? = some e := by rw [hl]; exact getElem?_append_cons _ _ _
        have h2 : l[pre.length]? = pre2[pre.length]? := by
          rw [hl2, List.getElem?_append_left hgt]
        have h3 : pre2[pre.length]? = some pre2[pre.length] := List.getElem?_eq_getElem hgt
        have h4 : e = pre2[pre.length] := by
          rw [h2, h3] at h1; exact (Option.some.inj h1).symm
        exact hpre2 _ (List.getElem_mem hgt) (h4 ▸ he)
    unfold insertStat
    simp only [hres]
    rw [if_pos (Int.natCast_nonneg _), Int.toNat_ofNat, hlen, hl, modify_append_cons]

theorem insertStat_not_found (l : List queriesCount) (q : queriesCount)
    (hall : ∀ n ∈ l, n.CountryCode ≠ q.CountryCode) : insertStat l q = l ++ [q] := by
  rcases Find_spec l q with ⟨_, hres⟩ | ⟨pre, e, post, hl, he, _, _⟩
  · unfold insertStat
    simp only [hres]
    rw [if_neg (by omega)]
  · exact absurd he (hall e (by simp [hl]))

theorem wrap64_wrap64 (a : Int) : wrap64 (wrap64 a) = wrap64 a := by
  have h := wrap64_add_wrap64 a 0
  simpa using h

theorem totalQueries_perm {l₁ l₂ : List queriesCount} (h : l₁.Perm l₂) :
    totalQueries l₁ = totalQueries l₂ :=
  (h.map _).sum_eq

theorem statSums_snd (l : List queriesCount) (d q : Int) (hq : wrap64 q = q) :
    (statSums l (d, q)).2 = wrap64 (q + totalQueries l) := by
  induction l generalizing d q with
  | nil => simp [statSums, totalQueries, hq]
  | cons v rest ih =>
    simp only [statSums]
    rw [ih _ _ (by unfold add64; exact wrap64_wrap64 _)]
    unfold add64
    rw [wrap64_add_wrap64]
    congr 1
    simp [totalQueries]
    ring

theorem getStats_fst (S : Sorter) (l : List queriesCount) :
    (getStats S l).1 = if l.length > 0 then S.run l else l := by
  unfold getStats
  by_cases h : l.length > 0
  · simp only [if_pos h]
    split
    · split <;> rfl
    · rfl
  · simp only [if_neg h]

theorem getStats_fst_perm (S : Sorter) (l : List queriesCount) : (getStats S l).1.Perm l := by
  rw [getStats_fst]
  split
  · exact S.perm l
  · exact List.Perm.refl l

theorem getStats_snd (S : Sorter) (l : List queriesCount) (first last : queriesCount)
    (h : l.length > 0) (hh : (S.run l).head? = some first)
    (hl : (S.run l).getLast? = some last) :
    (getStats S l).2 =
      if wrap64 (totalQueries l) = 0 then statsResponse.panicked
      else statsResponse.summary
        { FurthestDistance := last.Distance
          ClosestDistance := first.Distance
          AverageDistance := int64OfFloat64 (float64OfInt64
            (div64 (statSums (S.run l) (0, 0)).1 (wrap64 (totalQueries l)))) } := by
  have hq : (statSums (S.run l) (0, 0)).2 = wrap64 (totalQueries l) := by
    rw [statSums_snd _ _ _ (by decide), zero_add, totalQueries_perm (S.perm l)]
  unfold getStats
  simp only [if_pos h, hh, hl]
  rw [← hq]
  split <;> rfl

theorem codes_insertStat_found (pre : List queriesCount) (e : queriesCount)
    (post : List queriesCount) (k : Int) :
    (pre ++ { e with Queries := k } :: post).map (fun n => n.CountryCode) =
      (pre ++ e :: post).map (fun n => n.CountryCode) := by
  simp

theorem Find_getElem (l : List queriesCount) (x : queriesCount) (h : 0 ≤ Find l x) :
    ∃ e, l[(Find l x).toNat]? = some e ∧ e ∈ l ∧ e.CountryCode = x.CountryCode := by
  rcases Find_spec l x with ⟨_, hres⟩ | ⟨pre, e, post, hl, he, _, hres⟩
  · rw [hres] at h; omega
  · refine ⟨e, ?_, by simp [hl], he⟩
    rw [hres, Int.toNat_ofNat, hl]
    exact getElem?_append_cons _ _ _

theorem totalQueries_append_cons (pre : List queriesCount) (e : queriesCount)
    (post : List queriesCount) :
    totalQueries (pre ++ e :: post) = totalQueries pre + e.Queries + totalQueries post := by
  simp [totalQueries]
  ring

theorem totalQueries_nonneg (l : List queriesCount) (h : ∀ e ∈ l, 1 ≤ e.Queries) :
    0 ≤ totalQueries l := by
  induction l with
  | nil => simp [totalQueries]
  | cons a l ih =>
    have ha := h a (by simp)
    have hl := ih (fun e he => h e (by simp [he]))
    have : totalQueries (a :: l) = a.Queries + totalQueries l := by simp [totalQueries]
    omega

theorem counted_serve (S : Sorter) (queriesStats : List queriesCount) (n : Nat) (r : Request)
    (h : Counted queriesStats n) (hn : n + 1 < 2 ^ 63) :
    Counted (serve S queriesStats r) (countRecording n r) := by
  obtain ⟨hpos, htot⟩ := h
  cases r with
  | whereip code name distance =>
    simp only [serve, getIPInfo, countRecording]
    rcases Find_spec queriesStats ⟨code, name, distance, 1⟩ with
      ⟨hall, _⟩ | ⟨pre, e, post, hl, he, hpre, _⟩
    · rw [insertStat_not_found _ _ hall]
      refine ⟨?_, ?_⟩
      · intro e he
        rcases List.mem_append.mp he with h1 | h1
        · exact hpos e h1
        · rw [List.mem_singleton.mp h1]
      · have : totalQueries (queriesStats ++ [⟨code, name, distance, 1⟩]) =
            totalQueries queriesStats + 1 := by simp [totalQueries]
        rw [this, htot]; push_cast; ring
    · rw [insertStat_found _ _ pre e post hl he hpre]
      have he1 : 1 ≤ e.Queries := hpos e (by simp [hl])
      have hpre0 : 0 ≤ totalQueries pre :=
        totalQueries_nonneg pre (fun x hx => hpos x (by simp [hl, hx]))
      have hpost0 : 0 ≤ totalQueries post :=
        totalQueries_nonneg post (fun x hx => hpos x (by simp [hl, hx]))
      have hsplit : totalQueries pre + e.Queries + totalQueries post = n := by
        rw [← totalQueries_append_cons, ← hl]; exact htot
      have hn2 : (n : Int) + 1 < 9223372036854775808 := by
        have : n + 1 < 9223372036854775808 := by simpa using hn
        exact_mod_cast this
      have hadd : add64 e.Queries 1 = e.Queries + 1 := by
        unfold add64
        apply wrap64_of_inRange
        have h1 : (-(2 : Int) ^ 63) = -9223372036854775808 := by norm_num
        have h2 : ((2 : Int) ^ 63) = 9223372036854775808 := by norm_num
        rw [h1, h2]
        constructor <;> omega
      refine ⟨?_, ?_⟩
      · intro x hx
        rcases List.mem_append.mp hx with h1 | h1
        · exact hpos x (by simp [hl, h1])
        · rcases List.mem_cons.mp h1 with rfl | h2
          · show 1 ≤ add64 e.Queries 1
            rw [hadd]; omega
          · exact hpos x (by simp [hl, h2])
      · rw [totalQueries_append_cons]
        show totalQueries pre + add64 e.Queries 1 + totalQueries post = ((n + 1 : Nat) : Int)
        rw [hadd]; push_cast; omega
  | stats =>
    simp only [serve, countRecording]
    have hp := getStats_fst_perm S queriesStats
    exact ⟨fun e he => hpos e (hp.mem_iff.mp he), by rw [totalQueries_perm hp, htot]⟩
  | clearstats =>
    simp only [serve, countRecording, clearStats]
    exact ⟨by simp, by simp [totalQueries]⟩

theorem countRecording_le (n : Nat) (r : Request) : countRecording n r ≤ n + 1 := by
  cases r <;> simp [countRecording]

theorem counted_serveAll (S : Sorter) (reqs : List Request) :
    ∀ (queriesStats : List queriesCount) (n : Nat), Counted queriesStats n →
      n + reqs.length < 2 ^ 63 →
      Counted (serveAll S queriesStats reqs) (reqs.foldl countRecording n) := by
  induction reqs with
  | nil => intro l n h _; exact h
  | cons r reqs ih =>
    intro l n h hn
    simp only [List.length_cons] at hn
    have h1 := counted_serve S l n r h (by omega)
    have hle := countRecording_le n r
    exact ih _ _ h1 (by omega)

theorem wrap64_add_wrap64_right (a b : Int) : wrap64 (a + wrap64 b) = wrap64 (a + b) := by
  rw [add_comm, wrap64_add_wrap64, add_comm]

theorem statSums_fst (l : List queriesCount) (d q : Int) (hd : wrap64 d = d) :
    (statSums l (d, q)).1 = wrap64 (d + totalDistance l) := by
  induction l generalizing d q with
  | nil => simp [statSums, totalDistance, hd]
  | cons v rest ih =>
    simp only [statSums]
    rw [ih _ _ (by unfold add64; exact wrap64_wrap64 _)]
    unfold add64 mul64
    rw [wrap64_add_wrap64]
    have hre : d + wrap64 (v.Queries * v.Distance) + totalDistance rest =
        (d + totalDistance rest) + wrap64 (v.Queries * v.Distance) := by ring
    rw [hre, wrap64_add_wrap64_right]
    congr 1
    simp [totalDistance]
    ring

theorem totalDistance_perm {l₁ l₂ : List queriesCount} (h : l₁.Perm l₂) :
    totalDistance l₁ = totalDistance l₂ :=
  (h.map _).sum_eq

theorem getStats_average_eq_tdiv (S : Sorter) (queriesStats : List queriesCount)
    (s : statsSummary) (hresp : (getStats S queriesStats).2 = statsResponse.summary s)
    (hne : queriesStats ≠ [])
    (hq : -(2 : Int) ^ 63 ≤ totalQueries queriesStats ∧ totalQueries queriesStats < (2 : Int) ^ 63)
    (hd : -(2 : Int) ^ 63 ≤ totalDistance queriesStats ∧
      totalDistance queriesStats < (2 : Int) ^ 63)
    (hsmall : (Int.tdiv (totalDistance queriesStats) (totalQueries queriesStats)).natAbs
      < 2 ^ 53) :
    s.AverageDistance = Int.tdiv (totalDistance queriesStats) (totalQueries queriesStats) := by
  have hlen : queriesStats.length > 0 := List.length_pos.mpr hne
  have hsne : S.run queriesStats ≠ [] := by
    intro h0
    have := (S.perm queriesStats).length_eq
    rw [h0] at this
    simp at this
    omega
  obtain ⟨first, tail, hft⟩ := List.exists_cons_of_ne_nil hsne
  have hhead : (S.run queriesStats).head? = some first := by rw [hft]; rfl
  have hlast := List.getLast?_eq_getLast _ hsne
  rw [getStats_snd S queriesStats first _ hlen hhead hlast] at hresp
  have hds : (statSums (S.run queriesStats) (0, 0)).1 = totalDistance queriesStats := by
    rw [statSums_fst _ _ _ (by decide), zero_add, totalDistance_perm (S.perm queriesStats),
      wrap64_of_inRange _ hd]
  rw [hds, wrap64_of_inRange _ hq] at hresp
  have hsm : ((Int.tdiv (totalDistance queriesStats) (totalQueries queriesStats)).natAbs : Int)
      < 9007199254740992 := by
    have : (Int.tdiv (totalDistance queriesStats) (totalQueries queriesStats)).natAbs
        < 9007199254740992 := by simpa using hsmall
    exact_mod_cast this
  have h1 : (-(2 : Int) ^ 63) = -9223372036854775808 := by norm_num
  have h2 : ((2 : Int) ^ 63) = 9223372036854775808 := by norm_num
  have hr : -(2 : Int) ^ 63 ≤ Int.tdiv (totalDistance queriesStats) (totalQueries queriesStats) ∧
      Int.tdiv (totalDistance queriesStats) (totalQueries queriesStats) < (2 : Int) ^ 63 := by
    rw [h1, h2]; constructor <;> omega
  have hdiv : div64 (totalDistance queriesStats) (totalQueries queriesStats) =
      Int.tdiv (totalDistance queriesStats) (totalQueries queriesStats) := by
    unfold div64; exact wrap64_of_inRange _ hr
  have hfl : float64OfInt64 (Int.tdiv (totalDistance queriesStats) (totalQueries queriesStats))
      = Int.tdiv (totalDistance queriesStats) (totalQueries queriesStats) := by
    unfold float64OfInt64
    simp only [hsmall, if_true]
  rw [hdiv, hfl] at hresp
  have hi : int64OfFloat64 (Int.tdiv (totalDistance queriesStats) (totalQueries queriesStats))
      = Int.tdiv (totalDistance queriesStats) (totalQueries queriesStats) := by
    unfold int64OfFloat64; rw [if_pos hr]
  rw [hi] at hresp
  split at hresp
  · cases hresp
  · have := statsResponse.summary.inj hresp
    rw [← this]

theorem getStats_panics_of_zero_total (S : Sorter) (queriesStats : List queriesCount)
    (hne : queriesStats ≠ []) (hsum : wrap64 (totalQueries queriesStats) = 0) :
    (getStats S queriesStats).2 = statsResponse.panicked := by
  have hlen : queriesStats.length > 0 := List.length_pos.mpr hne
  have hsne : S.run queriesStats ≠ [] := by
    intro h0
    have := (S.perm queriesStats).length_eq
    rw [h0] at this
    simp at this
    omega
  obtain ⟨first, tail, hft⟩ := List.exists_cons_of_ne_nil hsne
  have hhead : (S.run queriesStats).head? = some first := by rw [hft]; rfl
  have hlast := List.getLast?_eq_getLast _ hsne
  rw [getStats_snd S queriesStats first _ hlen hhead hlast, if_pos hsum]

theorem wrap64_totalQueries_ne_zero (queriesStats : List queriesCount)
    (hne : queriesStats ≠ []) (hpos : ∀ e ∈ queriesStats, 1 ≤ e.Queries)
    (hfit : totalQueries queriesStats < 2 ^ 63) :
    wrap64 (totalQueries queriesStats) ≠ 0 := by
  obtain ⟨a, l, rfl⟩ := List.exists_cons_of_ne_nil hne
  have ha := hpos a (by simp)
  have hl := totalQueries_nonneg l (fun e he => hpos e (by simp [he]))
  have hcons : totalQueries (a :: l) = a.Queries + totalQueries l := by simp [totalQueries]
  have h2 : ((2 : Int) ^ 63) = 9223372036854775808 := by norm_num
  rw [wrap64_of_inRange _ ⟨by rw [h2]; omega, hfit⟩]
  omega

/-! ## The distance: lemmas -/

theorem hsin_sub_swap {F : Type} (M : Float64 F) (a b : F) :
    hsin M (M.sub b a) = hsin M (M.sub a b) := by
  unfold hsin
  rw [M.sub_swap a b, M.div_neg, M.Sin_neg, M.Pow_neg_two]

theorem hsin_zero {F : Type} (M : Float64 F) : hsin M (M.ofNat 0) = M.ofNat 0 := by
  unfold hsin
  rw [M.zero_div 1, M.Sin_zero, M.Pow_zero_two]

theorem hsin_nan {F : Type} (M : Float64 F) : hsin M M.nan = M.nan := by
  unfold hsin
  rw [M.nan_div, M.Sin_nan, M.Pow_nan]

theorem Distance_swap {F : Type} (M : Float64 F) (lat1 lon1 lat2 lon2 : F) :
    Distance M lat1 lon1 lat2 lon2 = Distance M lat2 lon2 lat1 lon1 := by
  unfold Distance
  simp only []
  rw [hsin_sub_swap M (M.div (M.mul lat2 M.pi) (M.ofNat 180)),
    hsin_sub_swap M (M.div (M.mul lon2 M.pi) (M.ofNat 180)),
    M.mul_comm (M.Cos (M.div (M.mul lat1 M.pi) (M.ofNat 180)))]

theorem Distance_nan_left {F : Type} (M : Float64 F) (lon1 lat2 lon2 : F) :
    Distance M M.nan lon1 lat2 lon2 = M.nan := by
  unfold Distance
  simp only []
  rw [M.nan_mul, M.nan_div, M.sub_nan, hsin_nan, M.nan_add, M.Sqrt_nan, M.Asin_nan, M.mul_nan]

theorem nan_ne_zero {F : Type} (M : Float64 F) : M.nan ≠ M.ofNat 0 := by
  intro h
  exact M.not_finite_nan (h ▸ M.finite_ofNat 0 (by norm_num))

theorem Distance_same {F : Type} (M : Float64 F) (lat lon : F)
    (hlat : M.finite (radians M lat)) (hlon : M.finite (radians M lon)) :
    Distance M lat lon lat lon = M.ofNat 0 := by
  unfold radians at hlat hlon
  unfold Distance
  simp only []
  rw [M.sub_self _ hlat, M.sub_self _ hlon, hsin_zero,
    M.mul_zero _ (M.finite_Cos_mul_Cos _ _ hlat hlat), M.add_zero, M.Sqrt_zero, M.Asin_zero,
    M.mul_ofNat 2 6378100 (by norm_num), M.mul_zero _ (M.finite_ofNat _ (by norm_num))]

/-! ## Claims -/

/-- C2: `insertStat(q)` merges rather than duplicates. If the country code of
`q` occurs in the collection, the first entry `e` carrying it (the only one
when codes are unique) has its count replaced by the `int64` sum
`e.Queries + q.Queries`, which is the exact sum whenever that fits an `int64`;
the number of entries, every other entry and every other field stay as they
were. If the code does not occur, `q` is appended as one new entry. Recording
`AR` with count 3 and then `AR` with count 2 on the empty collection leaves
exactly one entry, with count 5. -/
theorem insertStat_merges (queriesStats : List queriesCount) (q : queriesCount) :
    ((∃ n ∈ queriesStats, n.CountryCode = q.CountryCode) →
      ∃ pre e post, queriesStats = pre ++ e :: post ∧ e.CountryCode = q.CountryCode ∧
        (∀ n ∈ pre, n.CountryCode ≠ q.CountryCode) ∧
        insertStat queriesStats q =
          pre ++ { e with Queries := add64 e.Queries q.Queries } :: post ∧
        (insertStat queriesStats q).length = queriesStats.length ∧
        (-(2 : Int) ^ 63 ≤ e.Queries + q.Queries ∧ e.Queries + q.Queries < (2 : Int) ^ 63 →
          add64 e.Queries q.Queries = e.Queries + q.Queries)) ∧
    ((∀ n ∈ queriesStats, n.CountryCode ≠ q.CountryCode) →
      insertStat queriesStats q = queriesStats ++ [q]) ∧
    insertStat (insertStat [] ⟨"AR", "Argentina", 0, 3⟩) ⟨"AR", "Argentina", 0, 2⟩ =
      [⟨"AR", "Argentina", 0, 5⟩] := by
  refine ⟨?_, insertStat_not_found queriesStats q, by decide⟩
  intro hex
  rcases Find_spec queriesStats q with ⟨hall, _⟩ | ⟨pre, e, post, hl, he, hpre, _⟩
  · obtain ⟨n, hn, hc⟩ := hex
    exact absurd hc (hall n hn)
  · have hins := insertStat_found queriesStats q pre e post hl he hpre
    refine ⟨pre, e, post, hl, he, hpre, hins, ?_, ?_⟩
    · rw [hins, hl]; simp
    · intro hr
      exact wrap64_of_inRange _ hr

/-- C3: for every non-empty collection the summary `getStats` computes has
`ClosestDistance` equal to the minimum `Distance` over all entries and
`FurthestDistance` equal to the maximum `Distance` over all entries. The
summary is the response whenever the `int64` total of the query counts, the
divisor of the average, is not zero (it is positive whenever the counts are
positive and their total fits an `int64`); on a zero total the handler panics
in the division, after both distances have been assigned. -/
theorem getStats_closest_furthest (S : Sorter) (queriesStats : List queriesCount)
    (hne : queriesStats ≠ []) :
    (wrap64 (totalQueries queriesStats) ≠ 0 →
      ∃ s, (getStats S queriesStats).2 = statsResponse.summary s ∧
        (∃ e ∈ queriesStats, e.Distance = s.ClosestDistance) ∧
        (∀ e ∈ queriesStats, s.ClosestDistance ≤ e.Distance) ∧
        (∃ e ∈ queriesStats, e.Distance = s.FurthestDistance) ∧
        (∀ e ∈ queriesStats, e.Distance ≤ s.FurthestDistance)) ∧
    (wrap64 (totalQueries queriesStats) = 0 →
      (getStats S queriesStats).2 = statsResponse.panicked) := by
  refine ⟨?_, getStats_panics_of_zero_total S queriesStats hne⟩
  intro hsum
  have hlen : queriesStats.length > 0 := List.length_pos.mpr hne
  have hsne : S.run queriesStats ≠ [] := by
    intro h0
    have := (S.perm queriesStats).length_eq
    rw [h0] at this
    simp at this
    omega
  obtain ⟨first, tail, hft⟩ := List.exists_cons_of_ne_nil hsne
  have hhead : (S.run queriesStats).head? = some first := by rw [hft]; rfl
  have hlast : (S.run queriesStats).getLast? = some ((S.run queriesStats).getLast hsne) :=
    List.getLast?_eq_getLast _ hsne
  have hinit : (S.run queriesStats).dropLast ++ [(S.run queriesStats).getLast hsne] =
      S.run queriesStats := List.dropLast_append_getLast hsne
  have hmem : ∀ e, e ∈ S.run queriesStats ↔ e ∈ queriesStats :=
    fun e => (S.perm queriesStats).mem_iff
  have hsorted := S.sorted queriesStats
  have hresp := getStats_snd S queriesStats first _ hlen hhead hlast
  rw [if_neg hsum] at hresp
  refine ⟨_, hresp, ?_, ?_, ?_, ?_⟩
  · exact ⟨first, (hmem first).mp (by rw [hft]; simp), rfl⟩
  · intro e he
    have he2 : e ∈ first :: tail := hft ▸ (hmem e).mpr he
    rw [hft] at hsorted
    rcases List.mem_cons.mp he2 with rfl | ht
    · exact le_refl _
    · exact not_lt.mp ((List.pairwise_cons.mp hsorted).1 e ht)
  · exact ⟨_, (hmem _).mp (List.getLast_mem hsne), rfl⟩
  · intro e he
    have he2 : e ∈ (S.run queriesStats).dropLast ++ [(S.run queriesStats).getLast hsne] := by
      rw [hinit]; exact (hmem e).mpr he
    rw [← hinit] at hsorted
    rcases List.mem_append.mp he2 with hi | hl
    · exact not_lt.mp ((List.pairwise_append.mp hsorted).2.2 e hi _ (by simp))
    · rw [List.mem_singleton.mp hl]

/-- C3 at the specification's example, distances 100, 0 and 50: the response
is the summary with closest 0 and furthest 100. -/
theorem getStats_closest_furthest_witness :
    sampleStats ≠ [] ∧ wrap64 (totalQueries sampleStats) ≠ 0 ∧
    (getStats insertionSorter sampleStats).2 = statsResponse.summary
      { FurthestDistance := 100, ClosestDistance := 0, AverageDistance := 50 } ∧
    ∃ s, (getStats insertionSorter sampleStats).2 = statsResponse.summary s ∧
      (∃ e ∈ sampleStats, e.Distance = s.ClosestDistance) ∧
      (∀ e ∈ sampleStats, s.ClosestDistance ≤ e.Distance) ∧
      (∃ e ∈ sampleStats, e.Distance = s.FurthestDistance) ∧
      (∀ e ∈ sampleStats, e.Distance ≤ s.FurthestDistance) :=
  ⟨by decide, by decide, by decide,
    (getStats_closest_furthest insertionSorter sampleStats (by decide)).1 (by decide)⟩

/-- C4: after two recordings at 2862 km and one at 281 km the weighted mean is
`6005 / 3`, about 2001.67, whose nearest integer is 2002; `getStats` divides
the two `int64` sums before rounding and answers 2001. -/
theorem getStats_average_truncates :
    totalDistance (serveAll insertionSorter [] sampleRequests) = 6005 ∧
    totalQueries (serveAll insertionSorter [] sampleRequests) = 3 ∧
    roundedMean (serveAll insertionSorter [] sampleRequests) = 2002 ∧
    (getStats insertionSorter (serveAll insertionSorter [] sampleRequests)).2 =
      statsResponse.summary
        { FurthestDistance := 2862, ClosestDistance := 281, AverageDistance := 2001 } := by
  decide

/-- C5: uniqueness of country codes is an invariant of the store. If no two
entries share a country code, the same holds after `insertStat` of any record,
after `getStats` (its sort leaves a permutation of the same entries, `Find`
locates a code afterwards exactly when it did before, and at the same entry)
and after `clearStats`. -/
theorem unique_codes_preserved (S : Sorter) (queriesStats : List queriesCount)
    (h : (queriesStats.map (fun e => e.CountryCode)).Nodup) :
    (∀ q, ((insertStat queriesStats q).map (fun e => e.CountryCode)).Nodup) ∧
    (((getStats S queriesStats).1.map (fun e => e.CountryCode)).Nodup ∧
      (getStats S queriesStats).1.Perm queriesStats ∧
      (∀ x, 0 ≤ Find (getStats S queriesStats).1 x ↔ 0 ≤ Find queriesStats x) ∧
      (∀ x, 0 ≤ Find queriesStats x →
        (getStats S queriesStats).1[(Find (getStats S queriesStats).1 x).toNat]? =
          queriesStats[(Find queriesStats x).toNat]?)) ∧
    ((clearStats queriesStats).map (fun e => e.CountryCode)).Nodup := by
  have hp := getStats_fst_perm S queriesStats
  have hiff : ∀ x, 0 ≤ Find (getStats S queriesStats).1 x ↔ 0 ≤ Find queriesStats x := by
    intro x
    rw [Find_nonneg_iff, Find_nonneg_iff]
    constructor
    · rintro ⟨n, hn, hc⟩; exact ⟨n, hp.mem_iff.mp hn, hc⟩
    · rintro ⟨n, hn, hc⟩; exact ⟨n, hp.mem_iff.mpr hn, hc⟩
  refine ⟨?_, ⟨?_, hp, hiff, ?_⟩, ?_⟩
  · intro q
    rcases Find_spec queriesStats q with ⟨hall, _⟩ | ⟨pre, e, post, hl, he, hpre, _⟩
    · rw [insertStat_not_found _ _ hall, List.map_append, List.nodup_append]
      refine ⟨h, by simp, ?_⟩
      intro c hc hq
      obtain ⟨n, hn, hnc⟩ := List.mem_map.mp hc
      simp only [List.map_cons, List.map_nil, List.mem_singleton] at hq
      exact hall n hn (hnc.trans hq)
    · rw [insertStat_found _ _ pre e post hl he hpre, codes_insertStat_found, ← hl]
      exact h
  · exact ((hp.map _).nodup_iff).mpr h
  · intro x hx
    obtain ⟨e₁, h1, hm1, hc1⟩ := Find_getElem _ x ((hiff x).mpr hx)
    obtain ⟨e₂, h2, hm2, hc2⟩ := Find_getElem _ x hx
    rw [h1, h2]
    congr 1
    exact List.inj_on_of_nodup_map h (hp.mem_iff.mp hm1) hm2 (hc1.trans hc2.symm)
  · simp [clearStats]

/-- C5 at the specification's example collection. -/
theorem unique_codes_preserved_witness :
    (sampleStats.map (fun e => e.CountryCode)).Nodup ∧
    ((insertStat sampleStats ⟨"AR", "Argentina", 0, 1⟩).map (fun e => e.CountryCode)).Nodup ∧
    ((getStats insertionSorter sampleStats).1.map (fun e => e.CountryCode)).Nodup :=
  ⟨by decide,
    (unique_codes_preserved insertionSorter sampleStats (by decide)).1 ⟨"AR", "Argentina", 0, 1⟩,
    (unique_codes_preserved insertionSorter sampleStats (by decide)).2.1.1⟩

/-- C6: in the state reached from the empty collection by any sequence of
recordings (`insertStat` with `Queries = 1`, as `getIPInfo` makes them),
summaries (`getStats`) and clears (`clearStats`), the sum of `Queries` over
all entries equals the number of recordings made since the last clear. The
sequence is shorter than `2^63` requests, so that the count fits the `int64`
field that holds it. -/
theorem totalQueries_eq_recordings (S : Sorter) (reqs : List Request)
    (hlen : reqs.length < 2 ^ 63) :
    totalQueries (serveAll S [] reqs) = recordingsSinceClear reqs := by
  have h0 : Counted [] 0 := ⟨by simp, by simp [totalQueries]⟩
  exact (counted_serveAll S reqs [] 0 h0 (by omega)).2

/-- C6 on a session with a summary and a clear in the middle: three recordings
follow the clear. -/
theorem totalQueries_eq_recordings_witness :
    sampleSession.length < 2 ^ 63 ∧ recordingsSinceClear sampleSession = 3 ∧
    totalQueries (serveAll insertionSorter [] sampleSession) =
      recordingsSinceClear sampleSession :=
  ⟨by decide, by decide, totalQueries_eq_recordings insertionSorter sampleSession (by decide)⟩

/-- C1: on the specification's own examples the offset `getCountryTimeZones`
computes is not the reference offset. For `UTC-03:00` the code computes 0
where the reference gives -10800, and for `UTC+05:45` it computes 240 where
the reference gives 20700: the hour is read from the single byte at index 4,
the minutes from the single byte at index 7, and the sign from the empty
slice `[3:3]`. Of the three examples only the literal `UTC` agrees. -/
theorem tzDiffSeg_differs_from_reference :
    tzDiffSeg "UTC" = some 0 ∧ referenceOffset "UTC" = some 0 ∧
    tzDiffSeg "UTC-03:00" = some 0 ∧ referenceOffset "UTC-03:00" = some (-10800) ∧
    tzDiffSeg "UTC+05:45" = some 240 ∧ referenceOffset "UTC+05:45" = some 20700 ∧
    getCountryTimeZones ["UTC-03:00", "UTC+05:45"] =
      some [("UTC-03:00", 0), ("UTC+05:45", 240)] := by
  decide

/-- C9: when the lookup of the country-code path finds nothing (the field is
absent, or the body is not JSON), `getISO31661a2` returns the empty string,
whatever the configured sentinel is; with the default sentinel `XX` and the
empty object as body it returns the empty string, not `XX`. The result never
depends on the sentinel, since the statement returning it is not reachable. -/
theorem getISO31661a2_missing_field :
    (∀ (unkwonCountryCode : String) (body : List Nat) (GetBytes : List Nat → gjsonResult),
      GetBytes body = gjsonResult.missing →
      getISO31661a2 unkwonCountryCode (Except.ok ()) (fun _ => Except.ok body) GetBytes =
        Outcome.returned "") ∧
    (∀ (u₁ u₂ : String) (httpGet : Except String Unit)
      (readAll : Unit → Except String (List Nat)) (GetBytes : List Nat → gjsonResult),
      getISO31661a2 u₁ httpGet readAll GetBytes = getISO31661a2 u₂ httpGet readAll GetBytes) ∧
    getISO31661a2 "XX" (Except.ok ()) (fun _ => Except.ok (utf8 "\x7b\x7d")) sampleGetBytes =
      Outcome.returned "" ∧
    Outcome.returned "" ≠ Outcome.returned "XX" := by
  refine ⟨?_, ?_, by decide, by decide⟩
  · intro u body GetBytes h
    simp [getISO31661a2, h, gjsonResult.String]
  · intro u₁ u₂ httpGet readAll GetBytes
    unfold getISO31661a2
    cases httpGet with
    | error e => rfl
    | ok resp =>
      cases readAll resp with
      | error e => rfl
      | ok body => rfl

/-- C10, as stated, fails: `GMT+01:00` is neither the literal `UTC` nor of the
shape `UTC`, sign, hours, colon, minutes, yet its parsing does not panic; it
yields the offset 0 and a timestamp is produced for the entry. -/
theorem tzDiffSeg_accepts_other_shape :
    "GMT+01:00" ≠ "UTC" ∧ referenceOffset "GMT+01:00" = none ∧
    tzDiffSeg "GMT+01:00" = some 0 ∧
    getCountryTimeZones ["GMT+01:00"] = some [("GMT+01:00", 0)] := by
  decide

/-- C10, amended: for every timezone string other than the literal `UTC` that
is shorter than 8 bytes, or whose byte at index 4 or at index 7 is not a
decimal digit, the offset parsing panics, and with it the whole call of
`getCountryTimeZones` on a list that contains the string: no timestamp is
produced. -/
theorem getCountryTimeZones_panics (TZNames : List String) (s : String)
    (hmem : s ∈ TZNames) (hne : s ≠ "UTC")
    (h : (utf8 s).length < 8 ∨ isDigit ((utf8 s).getD 4 0) = false ∨
      isDigit ((utf8 s).getD 7 0) = false) :
    tzDiffSeg s = none ∧ getCountryTimeZones TZNames = none :=
  ⟨tzDiffSeg_eq_none s hne h,
    getCountryTimeZones_eq_none TZNames s hmem (tzDiffSeg_eq_none s hne h)⟩

/-- C10, amended, at a country document listing `UTC` and `Asia/Kolkata`: the
byte at index 4 of the second name is a slash. -/
theorem getCountryTimeZones_panics_witness :
    "Asia/Kolkata" ∈ ["UTC", "Asia/Kolkata"] ∧ "Asia/Kolkata" ≠ "UTC" ∧
    isDigit ((utf8 "Asia/Kolkata").getD 4 0) = false ∧
    tzDiffSeg "Asia/Kolkata" = none ∧ getCountryTimeZones ["UTC", "Asia/Kolkata"] = none :=
  ⟨by decide, by decide, by decide,
    getCountryTimeZones_panics ["UTC", "Asia/Kolkata"] "Asia/Kolkata" (by decide) (by decide)
      (Or.inr (Or.inl (by decide)))⟩

/-- C7, as stated, fails: with a NaN latitude the distance is NaN in both
directions, for every `float64` satisfying the contract, and the two results
do not compare equal under `==`. -/
theorem Distance_not_equal_at_nan :
    (∀ (F : Type) (M : Float64 F) (lon1 lat2 lon2 : F),
      Distance M M.nan lon1 lat2 lon2 = M.nan ∧
      M.eq (Distance M M.nan lon1 lat2 lon2) (Distance M lat2 lon2 M.nan lon1) = false) ∧
    smallAngle.eq (Distance smallAngle none (some 240) (some 360) (some 600))
      (Distance smallAngle (some 360) (some 600) none (some 240)) = false := by
  refine ⟨?_, by decide⟩
  intro F M lon1 lat2 lon2
  refine ⟨Distance_nan_left M lon1 lat2 lon2, ?_⟩
  rw [Distance_nan_left]
  cases h : M.eq M.nan (Distance M lat2 lon2 M.nan lon1) with
  | false => rfl
  | true => exact absurd rfl ((M.eq_iff _ _).mp h).2

/-- C7, amended: for all coordinates in degrees `Distance(lat1, lon1, lat2,
lon2)` and `Distance(lat2, lon2, lat1, lon1)` are the same `float64` value, and
they compare equal under `==` exactly when that value is not NaN. -/
theorem Distance_symm {F : Type} (M : Float64 F) (lat1 lon1 lat2 lon2 : F) :
    Distance M lat1 lon1 lat2 lon2 = Distance M lat2 lon2 lat1 lon1 ∧
    (M.eq (Distance M lat1 lon1 lat2 lon2) (Distance M lat2 lon2 lat1 lon1) = true ↔
      Distance M lat1 lon1 lat2 lon2 ≠ M.nan) := by
  refine ⟨Distance_swap M lat1 lon1 lat2 lon2, ?_⟩
  rw [M.eq_iff]
  constructor
  · intro h; exact h.2
  · intro h; exact ⟨Distance_swap M lat1 lon1 lat2 lon2, h⟩

/-- C7, amended, on the small instance: both directions give 38268600. -/
theorem Distance_symm_witness :
    Distance smallAngle (some 120) (some 240) (some 360) (some 600) = some 38268600 ∧
    Distance smallAngle (some 120) (some 240) (some 360) (some 600) =
      Distance smallAngle (some 360) (some 600) (some 120) (some 240) :=
  ⟨by decide, (Distance_symm smallAngle (some 120) (some 240) (some 360) (some 600)).1⟩

/-- C8, as stated, fails: for a coordinate with a NaN latitude the distance
from the point to itself is NaN, for every `float64` satisfying the contract,
and does not compare equal to 0. -/
theorem Distance_self_not_zero_at_nan :
    (∀ (F : Type) (M : Float64 F) (lon : F),
      Distance M M.nan lon M.nan lon = M.nan ∧
      M.eq (Distance M M.nan lon M.nan lon) (M.ofNat 0) = false) ∧
    smallAngle.eq (Distance smallAngle none (some 240) none (some 240)) (some 0) = false := by
  refine ⟨?_, by decide⟩
  intro F M lon
  refine ⟨Distance_nan_left M lon M.nan lon, ?_⟩
  rw [Distance_nan_left]
  cases h : M.eq M.nan (M.ofNat 0) with
  | false => rfl
  | true => exact absurd rfl ((M.eq_iff _ _).mp h).2

/-- C8, amended: for every coordinate whose latitude and longitude convert to
finite radians, `Distance(lat, lon, lat, lon)` is 0, it compares equal to 0
under `==`, and `getCountryDistance` returns 0 km for a country profile whose
latitude and longitude equal the base coordinate. -/
theorem Distance_self {F : Type} (M : Float64 F) (lat lon : F)
    (hlat : M.finite (radians M lat)) (hlon : M.finite (radians M lon)) :
    Distance M lat lon lat lon = M.ofNat 0 ∧
    M.eq (Distance M lat lon lat lon) (M.ofNat 0) = true ∧
    getCountryDistance M lat lon lat lon = 0 := by
  have h0 := Distance_same M lat lon hlat hlon
  refine ⟨h0, ?_, ?_⟩
  · rw [M.eq_iff]
    exact ⟨h0, fun h => nan_ne_zero M (h0 ▸ h).symm⟩
  · unfold getCountryDistance
    simp only []
    rw [h0, M.zero_div 999, M.Round_zero, M.toInt64_zero]

/-- C8, amended, on the small instance at latitude -34 and longitude -58. -/
theorem Distance_self_witness :
    smallAngle.finite (radians smallAngle (some (-34))) ∧
    smallAngle.finite (radians smallAngle (some (-58))) ∧
    Distance smallAngle (some (-34)) (some (-58)) (some (-34)) (some (-58)) = smallAngle.ofNat 0 ∧
    smallAngle.eq (Distance smallAngle (some (-34)) (some (-58)) (some (-34)) (some (-58)))
      (smallAngle.ofNat 0) = true ∧
    getCountryDistance smallAngle (some (-34)) (some (-58)) (some (-34)) (some (-58)) = 0 :=
  ⟨rfl, rfl, Distance_self smallAngle (some (-34)) (some (-58)) rfl rfl⟩

end WhereIP
